import Mathlib

/-!
Verification of the loading-states halftone engine and usage-series
generator, shallowly embedded from the TypeScript source.

Conventions of the embedding:
* TS `Position` (integer grid coordinates at every call site) becomes a
  structure over `ℤ`.
* The JS `Map<string, DotState>` keyed by the string `"x,y"` is modelled as
  an association list `List (Position × DotState)`; for integer coordinates
  the string key is in bijection with the coordinate pair, and JS `Map.set`
  updates an existing key in place or appends a new one, which `mapSet`
  reproduces.  A JS `Set` of `"x,y"` strings is likewise modelled by value
  membership in the originating list.
* JS number arithmetic is modelled exactly over `ℚ` (the decimal literals
  0.2, 0.45, … are written as the rationals they denote); `Math.round x` is
  `⌊x + 1/2⌋` (ties toward +∞, as in JS) and `Math.floor` is `⌊·⌋`.
* `Math.sqrt` never needs to be evaluated: every comparison of Euclidean
  distances in the source compares two square roots of nonnegative
  rationals (or a square root against `radius`), so it is rendered by the
  equivalent comparison of the squared quantities, with `0 ≤ radius`
  carried explicitly where the source compares `dist ≤ radius`.
-/

attribute [local semireducible] Rat.add Rat.mul Rat.sub Rat.inv

set_option maxRecDepth 100000

/-- Grid cell state, from `DotState` in the halftone module. -/
inductive DotState where
  | full
  | mid
  | empty
deriving DecidableEq

/-- Integer grid coordinate, from `Position` in the halftone module. -/
structure Position where
  x : ℤ
  y : ℤ
deriving DecidableEq

/-- Gradient direction, from the `"outward" | "inward"` union. -/
inductive Direction where
  | outward
  | inward
deriving DecidableEq

/-- The tagged strategy union `HalftoneStrategy`.  TS values of this type are
structurally typed, so at runtime a value whose `type` tag is none of the
four known strings can reach the dispatch switch; the constructor `other`
represents exactly those values (the switch in the source has no case for
them). -/
inductive HalftoneStrategy where
  | neighbors (orthogonalOnly : Bool) (distance : ℤ)
  | trail (length : ℤ)
  | distance (radius : ℚ)
  | gradient (direction : Direction)
  | other (tag : String)

/-- Association-list model of `Map<string, DotState>`. -/
abbrev StateMap := List (Position × DotState)

/-- JS `Map.set`: overwrite the entry with this key if present, else append. -/
def mapSet (m : StateMap) (k : Position) (v : DotState) : StateMap :=
  if m.any (fun e => e.1 = k) then
    m.map (fun e => if e.1 = k then (k, v) else e)
  else
    m ++ [(k, v)]

/-- JS `Map.has`. -/
def mapHas (m : StateMap) (k : Position) : Bool :=
  m.any (fun e => e.1 = k)

/-- JS `Map.get` (`none` models `undefined`). -/
def mapGet (m : StateMap) (k : Position) : Option DotState :=
  (m.find? (fun e => e.1 = k)).map (·.2)

/-- Building a JS `Set` from a list and reading it back with `Array.from`
keeps the first occurrence of each element in order. -/
def dedup (l : List Position) : List Position :=
  l.foldl (fun acc p => if p ∈ acc then acc else acc ++ [p]) []

/-- The in-bounds check `x >= 0 && x < gridSize && y >= 0 && y < gridSize`
repeated at each insertion site of the source. -/
def inBounds (p : Position) (gridSize : ℤ) : Prop :=
  0 ≤ p.x ∧ p.x < gridSize ∧ 0 ≤ p.y ∧ p.y < gridSize

instance (p : Position) (g : ℤ) : Decidable (inBounds p g) := by
  unfold inBounds; infer_instance

/-- Squared Euclidean distance to a rational point; the source's
`euclideanDistance` is its square root, which is never needed in isolation
(see the header comment). -/
def dist2 (p : Position) (c : ℚ × ℚ) : ℚ :=
  ((p.x : ℚ) - c.1) ^ 2 + ((p.y : ℚ) - c.2) ^ 2

/-- Helper `getNeighbors`: all offsets `(dx,dy)` with
`-distance ≤ dx,dy ≤ distance`, skipping `(0,0)`, skipping diagonals when
`orthogonalOnly`, bounds-checked.  The double `for` loop runs `dx` outer,
`dy` inner, both ascending; a negative `distance` gives no iterations, which
`(2*distance+1).toNat = 0` reproduces. -/
def getNeighbors (x y : ℤ) (gridSize : ℤ) (distance : ℤ) (orthogonalOnly : Bool) :
    List Position :=
  let offs : List ℤ := (List.range (2 * distance + 1).toNat).map (fun i => (i : ℤ) - distance)
  offs.flatMap (fun dx =>
    offs.filterMap (fun dy =>
      if dx = 0 ∧ dy = 0 then none
      else if orthogonalOnly = true ∧ dx ≠ 0 ∧ dy ≠ 0 then none
      else
        let nx := x + dx
        let ny := y + dy
        if inBounds ⟨nx, ny⟩ gridSize then some ⟨nx, ny⟩ else none))

/-- Neighbors strategy (`applyNeighborHalftones`). -/
def applyNeighborHalftones (positions : List Position) (gridSize : ℤ)
    (orthogonalOnly : Bool) (distance : ℤ) : List Position :=
  let midPositions := positions.flatMap (fun p =>
    (getNeighbors p.x p.y gridSize distance orthogonalOnly).filter
      (fun neighbor => neighbor ∉ positions))
  dedup midPositions

/-- Trail strategy (`applyTrailHalftones`).  `previousFrames.slice(0, length)`
takes the first `length` frames; a negative `length` counts from the end as
in JS. -/
def applyTrailHalftones (currentPositions : List Position)
    (previousFrames : List (List Position)) (length : ℤ) : List Position :=
  let cnt : ℤ := if 0 ≤ length then length else previousFrames.length + length
  let frames := previousFrames.take cnt.toNat
  let trailPositions := frames.flatMap (fun frame =>
    frame.filter (fun pos => pos ∉ currentPositions))
  dedup trailPositions

/-- The body of the `withinRadius` check of the distance strategy:
`0 < dist ∧ dist ≤ radius` for `dist = √d2`, expressed on squares. -/
def withinRadius (p full : Position) (radius : ℚ) : Bool :=
  decide (0 < dist2 p ((full.x : ℚ), (full.y : ℚ)) ∧ 0 ≤ radius ∧
    dist2 p ((full.x : ℚ), (full.y : ℚ)) ≤ radius ^ 2)

/-- Distance strategy (`applyDistanceHalftones`): scan the grid row-major
(`y` outer, `x` inner), skip full cells, keep cells within `radius` of some
full position. -/
def applyDistanceHalftones (positions : List Position) (radius : ℚ)
    (gridSize : ℤ) : List Position :=
  (List.range gridSize.toNat).flatMap (fun yn =>
    (List.range gridSize.toNat).filterMap (fun xn =>
      let p : Position := ⟨(xn : ℤ), (yn : ℤ)⟩
      if p ∈ positions then none
      else if positions.any (fun full => withinRadius p full radius) then some p
      else none))

/-- Helper `getCentroid`: arithmetic mean of the coordinates, `(0,0)` for an
empty list. -/
def getCentroid (positions : List Position) : ℚ × ℚ :=
  if positions.length = 0 then (0, 0)
  else
    ((positions.map (fun p => (p.x : ℚ))).sum / positions.length,
     (positions.map (fun p => (p.y : ℚ))).sum / positions.length)

/-- Gradient strategy (`applyGradientHalftones`): keep a 1-distance neighbor
of the shape when some full position is strictly closer to (`outward`) or
strictly farther from (`inward`) the centroid than the neighbor is. -/
def applyGradientHalftones (positions : List Position) (direction : Direction)
    (gridSize : ℤ) : List Position :=
  let centroid := getCentroid positions
  let neighbors := applyNeighborHalftones positions gridSize false 1
  neighbors.filter (fun neighbor =>
    positions.any (fun full =>
      match direction with
      | Direction.outward => decide (dist2 full centroid < dist2 neighbor centroid)
      | Direction.inward => decide (dist2 full centroid > dist2 neighbor centroid)))

/-- Main entry `generateHalftoneStates`: seed in-bounds full positions, pick
the mid candidates by strategy (the switch has no default, so an
unrecognised tag leaves the list empty), then merge candidates that are new
and in bounds as `mid`. -/
def generateHalftoneStates (fullPositions : List Position)
    (strategy : HalftoneStrategy) (gridSize : ℤ)
    (frameHistory : List (List Position)) : StateMap :=
  let stateMap : StateMap :=
    fullPositions.foldl (fun m p =>
      if inBounds p gridSize then mapSet m p DotState.full else m) []
  let midPositions : List Position :=
    match strategy with
    | HalftoneStrategy.neighbors orthogonalOnly distance =>
        applyNeighborHalftones fullPositions gridSize orthogonalOnly distance
    | HalftoneStrategy.trail length =>
        applyTrailHalftones fullPositions frameHistory length
    | HalftoneStrategy.distance radius =>
        applyDistanceHalftones fullPositions radius gridSize
    | HalftoneStrategy.gradient direction =>
        applyGradientHalftones fullPositions direction gridSize
    | HalftoneStrategy.other _ => []
  midPositions.foldl (fun m p =>
    if ¬ mapHas m p ∧ inBounds p gridSize then mapSet m p DotState.mid else m)
    stateMap

/-!
The usage-series generator `createUsagePositions` from `ActorsRunCard.tsx`.
`Math.random()` draws (one per loop iteration) are supplied as the explicit
input `rand`, and the one transcendental operation `Math.pow(t, 1.4)` is
supplied as the function parameter `powQ` (the theorems below either hold
for every `powQ`, or assume only `powQ 0 = 0`, which is exact for
`Math.pow`).
-/

/-- Grid width of the dashboard card, `GRID_COLUMNS` in the source. -/
def GRID_COLUMNS : ℕ := 21

/-- Grid height of the dashboard card, `GRID_ROWS` in the source. -/
def GRID_ROWS : ℕ := 13

/-- JS `Math.round`: round half toward `+∞`. -/
def jsRound (q : ℚ) : ℤ := ⌊q + 1 / 2⌋

/-- JS `Math.max` on two rationals (spelled out so that the kernel can
evaluate it on concrete inputs). -/
def jsMax (a b : ℚ) : ℚ := if a ≤ b then b else a

/-- JS `Math.min` on two rationals. -/
def jsMin (a b : ℚ) : ℚ := if a ≤ b then a else b

/-- JS `Math.max` on two integer-valued numbers. -/
def jsMaxI (a b : ℤ) : ℤ := if a ≤ b then b else a

/-- JS `Math.min` on two integer-valued numbers. -/
def jsMinI (a b : ℤ) : ℤ := if a ≤ b then a else b

/-- One entry of the `baseHeights` array of `createUsagePositions`:
`round(amplitude*maxHeight + trendOffset - tailDrop)` for column `column`,
where `powQ t` stands for `Math.pow(t, 1.4)`. -/
def baseHeight (clamped trend : ℚ) (powQ : ℚ → ℚ) (column : ℕ) : ℤ :=
  let t : ℚ := (column : ℚ) / ((GRID_COLUMNS : ℚ) - 1)
  let curve := t * t
  let amplitude := clamped * (1 / 5 + 4 / 5 * curve)
  let maxHeight : ℚ := (GRID_ROWS : ℚ) - 1
  let trendOffset := trend * powQ t * maxHeight * (9 / 10)
  let tailDrop :=
    if trend < 0 ∧ 3 / 5 < t then
      |trend| * ((t - 3 / 5) / (2 / 5)) * maxHeight * (3 / 5)
    else 0
  jsRound (amplitude * maxHeight + trendOffset - tailDrop)

/-- The jittered-easing loop of `createUsagePositions`, producing the
`heights` array: at each column, draw `delta` from the random source, clamp
the jittered base height to `[0, maxHeight]` and blend the running value
toward it with ease factor `0.45`.  `fuel` counts the remaining loop
iterations (`GRID_COLUMNS` at the top call). -/
def heightsGo (clamped trend : ℚ) (powQ : ℚ → ℚ) (rand : ℕ → ℚ) (jitter : ℤ) :
    ℤ → ℕ → ℕ → List ℤ
  | _, _, 0 => []
  | current, column, fuel + 1 =>
      let maxHeight : ℤ := (GRID_ROWS : ℤ) - 1
      let delta : ℤ := ⌊rand column * (jitter * 2 + 1)⌋ - jitter
      let target : ℤ := jsMinI maxHeight (jsMaxI 0 (baseHeight clamped trend powQ column + delta))
      let ease : ℚ := 45 / 100
      let next : ℤ := jsRound ((current : ℚ) * (1 - ease) + (target : ℚ) * ease)
      next :: heightsGo clamped trend powQ rand jitter next (column + 1) fuel

/-- The tap-smoothing pass: weighted 3-point moving average
`round((prev + value*2 + next) / 4)`, edge columns reusing themselves
(`heights[max(0, i-1)]`, `heights[min(len-1, i+1)]`). -/
def smoothHeights (heights : List ℤ) : List ℤ :=
  (List.range heights.length).map (fun i =>
    let prev := heights.getD (i - 1) 0
    let value := heights.getD i 0
    let next := heights.getD (min (heights.length - 1) (i + 1)) 0
    jsRound (((prev + value * 2 + next : ℤ) : ℚ) / 4))

/-- The usage-series generator `createUsagePositions`: clamp the inputs,
build the base curve, jitter and ease it, smooth it, then emit one cell per
column at `(column, maxHeight - height)`. -/
def createUsagePositions (usageLevel usageTrend : ℚ) (rand : ℕ → ℚ)
    (powQ : ℚ → ℚ) : List Position :=
  let clamped := jsMax 0 (jsMin 1 usageLevel)
  let trend := jsMax (-1) (jsMin 1 usageTrend)
  let maxHeight : ℤ := (GRID_ROWS : ℤ) - 1
  let baseHeights := (List.range GRID_COLUMNS).map (baseHeight clamped trend powQ)
  let jitter : ℤ := jsMaxI 1 (jsRound (clamped * 2))
  let heights := heightsGo clamped trend powQ rand jitter (baseHeights.getD 0 0) 0 GRID_COLUMNS
  let smoothed := smoothHeights heights
  (List.range GRID_COLUMNS).map (fun (column : ℕ) =>
    ⟨(column : ℤ), maxHeight - smoothed.getD column 0⟩)

/-- The random draws of the C3 counterexample: `Math.random()` returning `0`
for the first ten columns (jitter delta `-2`) and `4/5` afterwards
(jitter delta `+2`). -/
def cexRand : ℕ → ℚ := fun i => if i < 10 then 0 else 4 / 5

/-- An eleven-frame history whose eleventh (oldest) frame is the only one
holding a cell. -/
def cexHistory : List (List Position) := List.replicate 10 [] ++ [[⟨0, 0⟩]]

/-! Basic facts about the association-list model of `Map`. -/

theorem mem_mapSet {m : StateMap} {k : Position} {v : DotState}
    {e : Position × DotState} (h : e ∈ mapSet m k v) : e ∈ m ∨ e = (k, v) := by
  unfold mapSet at h
  split at h
  · rcases List.mem_map.mp h with ⟨a, ha, rfl⟩
    by_cases hk : a.1 = k
    · right; simp [hk]
    · left; simpa [hk] using ha
  · rcases List.mem_append.mp h with h' | h'
    · exact Or.inl h'
    · exact Or.inr (List.mem_singleton.mp h')

theorem find?_overwrite (m : StateMap) (k : Position) (v : DotState)
    (h : (m.any fun e => decide (e.1 = k)) = true) :
    (m.map (fun e => if e.1 = k then (k, v) else e)).find?
      (fun e => decide (e.1 = k)) = some (k, v) := by
  induction m with
  | nil => simp at h
  | cons a t ih =>
    rw [List.map_cons]
    by_cases ha : a.1 = k
    · rw [if_pos ha]
      exact List.find?_cons_of_pos _ (by simp)
    · rw [if_neg ha, List.find?_cons_of_neg _ (by simp [ha])]
      exact ih (by simpa [List.any_cons, ha] using h)

theorem find?_overwrite_ne (m : StateMap) {k k' : Position} (v : DotState)
    (hne : k' ≠ k) :
    (m.map (fun e => if e.1 = k then (k, v) else e)).find?
      (fun e => decide (e.1 = k')) = m.find? (fun e => decide (e.1 = k')) := by
  induction m with
  | nil => rfl
  | cons a t ih =>
    rw [List.map_cons]
    by_cases ha : a.1 = k
    · have h1 : ¬ ((k, v).1 = k') := fun hh => hne (Eq.symm hh)
      have h2 : ¬ (a.1 = k') := fun hh => hne (Eq.symm (ha ▸ hh))
      rw [if_pos ha, List.find?_cons_of_neg _ (by simpa using h1),
        List.find?_cons_of_neg _ (by simpa using h2)]
      exact ih
    · rw [if_neg ha]
      by_cases ha' : a.1 = k'
      · rw [List.find?_cons_of_pos _ (by simpa using ha'),
          List.find?_cons_of_pos _ (by simpa using ha')]
      · rw [List.find?_cons_of_neg _ (by simpa using ha'),
          List.find?_cons_of_neg _ (by simpa using ha')]
        exact ih

theorem find?_none_of_not_any (m : StateMap) (k : Position)
    (h : ¬ (m.any fun e => decide (e.1 = k)) = true) :
    m.find? (fun e => decide (e.1 = k)) = none := by
  rw [List.find?_eq_none]
  intro x hx hcon
  exact h (List.any_eq_true.mpr ⟨x, hx, hcon⟩)

theorem mapGet_mapSet_self (m : StateMap) (k : Position) (v : DotState) :
    mapGet (mapSet m k v) k = some v := by
  unfold mapGet mapSet
  by_cases h : (m.any fun e => decide (e.1 = k)) = true
  · rw [if_pos h, find?_overwrite m k v h]
    rfl
  · rw [if_neg h, List.find?_append, find?_none_of_not_any m k h]
    simp [List.find?]

theorem mapGet_mapSet_ne (m : StateMap) {k k' : Position} (v : DotState)
    (hne : k' ≠ k) : mapGet (mapSet m k v) k' = mapGet m k' := by
  unfold mapGet mapSet
  by_cases h : (m.any fun e => decide (e.1 = k)) = true
  · rw [if_pos h, find?_overwrite_ne m v hne]
  · rw [if_neg h, List.find?_append]
    have h1 : List.find? (fun e => decide (e.1 = k')) [(k, v)] = none := by
      simp [List.find?, Ne.symm hne]
    rw [h1]
    cases m.find? (fun e => decide (e.1 = k')) <;> rfl

theorem mapHas_of_mapGet {m : StateMap} {k : Position} {v : DotState}
    (h : mapGet m k = some v) : mapHas m k = true := by
  unfold mapGet at h
  unfold mapHas
  rcases Option.map_eq_some'.mp h with ⟨e, he, _⟩
  have hp := List.find?_some he
  exact List.any_eq_true.mpr ⟨e, List.mem_of_find?_eq_some he, hp⟩

/-! Facts about the two insertion folds of `generateHalftoneStates`. -/

theorem foldl_insert_inBounds (g : ℤ) (step : StateMap → Position → StateMap)
    (hstep : ∀ m p e, e ∈ step m p → e ∈ m ∨ inBounds e.1 g) :
    ∀ (ps : List Position) (m : StateMap), (∀ e ∈ m, inBounds e.1 g) →
      ∀ e ∈ ps.foldl step m, inBounds e.1 g := by
  intro ps
  induction ps with
  | nil => intro m hm e he; exact hm e he
  | cons p t ih =>
    intro m hm e he
    refine ih (step m p) ?_ e he
    intro e' he'
    rcases hstep m p e' he' with h' | h'
    · exact hm e' h'
    · exact h'

theorem foldl_full_get (g : ℤ) (ps : List Position) :
    ∀ (m : StateMap) (p : Position), mapGet m p = some DotState.full →
      mapGet (ps.foldl (fun m q =>
        if inBounds q g then mapSet m q DotState.full else m) m) p
        = some DotState.full := by
  induction ps with
  | nil => intro m p h; exact h
  | cons q t ih =>
    intro m p h
    refine ih _ p ?_
    show mapGet (if inBounds q g then mapSet m q DotState.full else m) p
      = some DotState.full
    by_cases hb : inBounds q g
    · rw [if_pos hb]
      by_cases hq : p = q
      · subst hq; exact mapGet_mapSet_self m p DotState.full
      · rw [mapGet_mapSet_ne m DotState.full hq]; exact h
    · rwa [if_neg hb]

theorem foldl_full_mem (g : ℤ) (ps : List Position) :
    ∀ (m : StateMap) (p : Position), p ∈ ps → inBounds p g →
      mapGet (ps.foldl (fun m q =>
        if inBounds q g then mapSet m q DotState.full else m) m) p
        = some DotState.full := by
  induction ps with
  | nil => intro m p h; exact absurd h (List.not_mem_nil p)
  | cons q t ih =>
    intro m p hp hb
    rcases List.mem_cons.mp hp with rfl | hp'
    · rw [List.foldl_cons, if_pos hb]
      exact foldl_full_get g t _ p (mapGet_mapSet_self m p DotState.full)
    · exact ih _ p hp' hb

theorem foldl_mid_get (g : ℤ) (mids : List Position) :
    ∀ (m : StateMap) (p : Position), mapGet m p = some DotState.full →
      mapGet (mids.foldl (fun m q =>
        if ¬ mapHas m q ∧ inBounds q g then mapSet m q DotState.mid else m) m) p
        = some DotState.full := by
  induction mids with
  | nil => intro m p h; exact h
  | cons q t ih =>
    intro m p h
    refine ih _ p ?_
    show mapGet (if ¬ mapHas m q ∧ inBounds q g then mapSet m q DotState.mid else m) p
      = some DotState.full
    by_cases hc : ¬ mapHas m q ∧ inBounds q g
    · rw [if_pos hc]
      by_cases hq : p = q
      · exact absurd (hq ▸ mapHas_of_mapGet h) (by simpa using hc.1)
      · rw [mapGet_mapSet_ne m DotState.mid hq]; exact h
    · rwa [if_neg hc]

/-- C4: every key of the returned `StateMap` lies inside the grid, for every
input, even when `fullPositions`, the frame history or the derived mid
candidates contain out-of-range coordinates; such positions are silently
dropped by the bounds guards at both insertion sites. -/
theorem c4_all_keys_in_bounds (fullPositions : List Position)
    (strategy : HalftoneStrategy) (gridSize : ℤ)
    (frameHistory : List (List Position)) (e : Position × DotState)
    (he : e ∈ generateHalftoneStates fullPositions strategy gridSize frameHistory) :
    0 ≤ e.1.x ∧ e.1.x < gridSize ∧ 0 ≤ e.1.y ∧ e.1.y < gridSize := by
  have hstepFull : ∀ (m : StateMap) (p : Position) (e : Position × DotState),
      e ∈ (if inBounds p gridSize then mapSet m p DotState.full else m) →
      e ∈ m ∨ inBounds e.1 gridSize := by
    intro m p e' he'
    by_cases hb : inBounds p gridSize
    · rw [if_pos hb] at he'
      rcases mem_mapSet he' with h' | h'
      · exact Or.inl h'
      · exact Or.inr (by rw [h']; exact hb)
    · rw [if_neg hb] at he'; exact Or.inl he'
  have hstepMid : ∀ (m : StateMap) (p : Position) (e : Position × DotState),
      e ∈ (if ¬ mapHas m p ∧ inBounds p gridSize then mapSet m p DotState.mid else m) →
      e ∈ m ∨ inBounds e.1 gridSize := by
    intro m p e' he'
    by_cases hc : ¬ mapHas m p ∧ inBounds p gridSize
    · rw [if_pos hc] at he'
      rcases mem_mapSet he' with h' | h'
      · exact Or.inl h'
      · exact Or.inr (by rw [h']; exact hc.2)
    · rw [if_neg hc] at he'; exact Or.inl he'
  have hseed : ∀ e ∈ fullPositions.foldl (fun m p =>
      if inBounds p gridSize then mapSet m p DotState.full else m) [],
      inBounds e.1 gridSize :=
    foldl_insert_inBounds gridSize _ hstepFull fullPositions []
      (by intro e' he'; exact absurd he' (List.not_mem_nil e'))
  have := foldl_insert_inBounds gridSize _ hstepMid _ _ hseed e
    (by simpa [generateHalftoneStates] using he)
  exact this

/-- C5: an in-bounds full position is always mapped to `full` and is never
overwritten by the mid merge (a candidate becomes `mid` only when its key is
absent), so no coordinate carries both states. -/
theorem c5_full_never_overwritten (fullPositions : List Position)
    (strategy : HalftoneStrategy) (gridSize : ℤ)
    (frameHistory : List (List Position)) (p : Position)
    (hp : p ∈ fullPositions) (hb : inBounds p gridSize) :
    mapGet (generateHalftoneStates fullPositions strategy gridSize frameHistory) p
      = some DotState.full := by
  have h1 := foldl_full_mem gridSize fullPositions [] p hp hb
  have h2 := foldl_mid_get gridSize
    (match strategy with
     | HalftoneStrategy.neighbors orthogonalOnly distance =>
         applyNeighborHalftones fullPositions gridSize orthogonalOnly distance
     | HalftoneStrategy.trail length =>
         applyTrailHalftones fullPositions frameHistory length
     | HalftoneStrategy.distance radius =>
         applyDistanceHalftones fullPositions radius gridSize
     | HalftoneStrategy.gradient direction =>
         applyGradientHalftones fullPositions direction gridSize
     | HalftoneStrategy.other _ => []) _ p h1
  simpa [generateHalftoneStates] using h2

/-- C1: with a single full cell `(2,2)`, the all-direction distance-1
neighbors strategy on the 5×5 grid maps `(2,2)` to `full`, each of the 8
surrounding cells to `mid`, and has entries for no other cell. -/
theorem c1_neighbors_scenario :
    mapGet (generateHalftoneStates [⟨2, 2⟩] (HalftoneStrategy.neighbors false 1) 5 []) ⟨2, 2⟩
        = some DotState.full ∧
    (([⟨1, 1⟩, ⟨2, 1⟩, ⟨3, 1⟩, ⟨1, 2⟩, ⟨3, 2⟩, ⟨1, 3⟩, ⟨2, 3⟩, ⟨3, 3⟩] : List Position).all
        (fun p =>
          mapGet (generateHalftoneStates [⟨2, 2⟩] (HalftoneStrategy.neighbors false 1) 5 []) p
            = some DotState.mid)) = true ∧
    ((generateHalftoneStates [⟨2, 2⟩] (HalftoneStrategy.neighbors false 1) 5 []).all
        (fun e => e.1 = (⟨2, 2⟩ : Position) ∨
          e.1 ∈ ([⟨1, 1⟩, ⟨2, 1⟩, ⟨3, 1⟩, ⟨1, 2⟩, ⟨3, 2⟩, ⟨1, 3⟩, ⟨2, 3⟩, ⟨3, 3⟩] : List Position)))
      = true := by
  decide

/-- C2 (code evaluation at the failing input): the dispatch switch of
`generateHalftoneStates` has no default case, so a strategy value with an
unrecognised tag silently produces no mid candidates: the call returns the
map holding only the full cell, with zero mid cells, and raises nothing.
This contradicts the spec, which requires an explicit unsupported-strategy
error here. -/
theorem c2_unknown_tag_silent_noop :
    generateHalftoneStates [⟨2, 2⟩] (HalftoneStrategy.other "unknown") 5 []
      = [(⟨2, 2⟩, DotState.full)] := by
  decide

theorem filterMap_const_none {α β : Type} (l : List α) :
    List.filterMap (fun _ => (none : Option β)) l = [] := by
  induction l with
  | nil => rfl
  | cons a t ih => simp [List.filterMap_cons, ih]

theorem flatMap_const_nil {α β : Type} (l : List α) :
    l.flatMap (fun _ => ([] : List β)) = [] := by
  induction l with
  | nil => rfl
  | cons a t ih => simp [List.flatMap_cons, ih]

/-- C6 counterexample: with an empty full-position set the trail strategy
does not return an empty map: every position of the consumed history frames
survives the (empty) current-set filter and is merged as `mid`. -/
theorem c6_counterexample :
    ¬ ∀ (strategy : HalftoneStrategy) (gridSize : ℤ)
        (frameHistory : List (List Position)),
        generateHalftoneStates [] strategy gridSize frameHistory = [] := by
  intro h
  exact absurd (h (HalftoneStrategy.trail 1) 5 [[⟨1, 1⟩]]) (by decide)

/-- C6 (amended): with an empty full-position set, every strategy returns an
empty map, except that the trail strategy additionally requires an empty
frame history (a nonempty history contributes its cells as `mid` even when
the current frame is empty). -/
theorem c6_empty_full_positions (strategy : HalftoneStrategy) (gridSize : ℤ)
    (frameHistory : List (List Position))
    (htrail : ∀ length, strategy = HalftoneStrategy.trail length → frameHistory = []) :
    generateHalftoneStates [] strategy gridSize frameHistory = [] := by
  cases strategy with
  | neighbors orthogonalOnly distance =>
    simp [generateHalftoneStates, applyNeighborHalftones, dedup]
  | trail length =>
    rw [htrail length rfl]
    simp [generateHalftoneStates, applyTrailHalftones, dedup]
  | distance radius =>
    simp [generateHalftoneStates, applyDistanceHalftones, filterMap_const_none,
      flatMap_const_nil]
  | gradient direction =>
    simp [generateHalftoneStates, applyGradientHalftones, applyNeighborHalftones, dedup]
  | other tag =>
    simp [generateHalftoneStates]

theorem c6_empty_full_positions_witness :
    generateHalftoneStates [] (HalftoneStrategy.neighbors false 1) 5 [[⟨1, 1⟩]] = [] :=
  c6_empty_full_positions (HalftoneStrategy.neighbors false 1) 5 [[⟨1, 1⟩]]
    (fun _ h => nomatch h)

/-- C7 counterexample: `generateHalftoneStates` itself does not cap the
consumed history at 10 frames (`applyTrailHalftones` slices
`previousFrames.slice(0, length)` with no cap; the `min(length, 10)` cap
lives in the caller that maintains the history).  With `length = 11` the
eleventh frame changes the result. -/
theorem c7_counterexample :
    ¬ ∀ (length : ℤ) (fullPositions : List Position) (gridSize : ℤ)
        (frameHistory : List (List Position)), 10 < frameHistory.length →
        generateHalftoneStates fullPositions (HalftoneStrategy.trail length) gridSize frameHistory
          = generateHalftoneStates fullPositions (HalftoneStrategy.trail length) gridSize
              (frameHistory.take 10) := by
  intro h
  exact absurd (h 11 [] 5 cexHistory (by decide)) (by decide)

theorem applyTrailHalftones_take_ten (currentPositions : List Position)
    (previousFrames : List (List Position)) (length : ℤ)
    (h0 : 0 ≤ length) (h10 : length ≤ 10) :
    applyTrailHalftones currentPositions previousFrames length
      = applyTrailHalftones currentPositions (previousFrames.take 10) length := by
  simp only [applyTrailHalftones, if_pos h0, List.take_take]
  rw [min_eq_left (Int.toNat_le.mpr h10)]

/-- C7 (amended): for a trail length `L` with `0 ≤ L ≤ 10`, supplying more
than 10 history frames never changes the result versus supplying exactly the
first 10; the full `min(L, 10)` cap of the spec is enforced by the caller,
which never stores more than 10 frames, not by `generateHalftoneStates`. -/
theorem c7_trail_cap (length : ℤ) (h0 : 0 ≤ length) (h10 : length ≤ 10)
    (fullPositions : List Position) (gridSize : ℤ)
    (frameHistory : List (List Position)) :
    generateHalftoneStates fullPositions (HalftoneStrategy.trail length) gridSize frameHistory
      = generateHalftoneStates fullPositions (HalftoneStrategy.trail length) gridSize
          (frameHistory.take 10) := by
  simp only [generateHalftoneStates,
    applyTrailHalftones_take_ten fullPositions frameHistory length h0 h10]

theorem c7_trail_cap_witness :
    generateHalftoneStates [] (HalftoneStrategy.trail 2) 5 cexHistory
      = generateHalftoneStates [] (HalftoneStrategy.trail 2) 5 (cexHistory.take 10) :=
  c7_trail_cap 2 (by decide) (by decide) [] 5 cexHistory

theorem withinRadius_mono (p full : Position) {r1 r2 : ℚ} (hr : r1 ≤ r2)
    (hw : withinRadius p full r1 = true) : withinRadius p full r2 = true := by
  unfold withinRadius at hw ⊢
  rw [decide_eq_true_iff] at hw ⊢
  obtain ⟨h1, h2, h3⟩ := hw
  refine ⟨h1, le_trans h2 hr, le_trans h3 ?_⟩
  have := pow_le_pow_left₀ h2 hr 2
  simpa using this

/-- C8: the mid set of the distance strategy is monotone in the radius:
whatever the full-position set and the grid size, every cell emitted for
radius `r1` is emitted for any radius `r2 ≥ r1`. -/
theorem c8_distance_monotone (positions : List Position) (gridSize : ℤ)
    (r1 r2 : ℚ) (hr : r1 ≤ r2) (p : Position)
    (hp : p ∈ applyDistanceHalftones positions r1 gridSize) :
    p ∈ applyDistanceHalftones positions r2 gridSize := by
  simp only [applyDistanceHalftones] at hp ⊢
  rcases List.mem_flatMap.mp hp with ⟨yn, hyn, hin⟩
  rcases List.mem_filterMap.mp hin with ⟨xn, hxn, hf⟩
  refine List.mem_flatMap.mpr ⟨yn, hyn, List.mem_filterMap.mpr ⟨xn, hxn, ?_⟩⟩
  by_cases hmem : (⟨(xn : ℤ), (yn : ℤ)⟩ : Position) ∈ positions
  · rw [if_pos hmem] at hf
    exact absurd hf (by simp)
  · rw [if_neg hmem] at hf
    rw [if_neg hmem]
    by_cases hany : (positions.any fun full => withinRadius ⟨(xn : ℤ), (yn : ℤ)⟩ full r1) = true
    · rw [if_pos hany] at hf
      rcases List.any_eq_true.mp hany with ⟨full, hfull, hw⟩
      have hany2 : (positions.any fun full => withinRadius ⟨(xn : ℤ), (yn : ℤ)⟩ full r2) = true :=
        List.any_eq_true.mpr ⟨full, hfull, withinRadius_mono _ _ hr hw⟩
      rw [if_pos hany2]
      exact hf
    · rw [if_neg hany] at hf
      exact absurd hf (by simp)

theorem c8_distance_monotone_witness :
    (1 : ℚ) ≤ 2 ∧
      (⟨1, 0⟩ : Position) ∈ applyDistanceHalftones [⟨0, 0⟩] 1 5 ∧
      (⟨1, 0⟩ : Position) ∈ applyDistanceHalftones [⟨0, 0⟩] 2 5 :=
  ⟨by norm_num, by decide,
    c8_distance_monotone [⟨0, 0⟩] 5 1 2 (by norm_num) ⟨1, 0⟩ (by decide)⟩

theorem c4_all_keys_in_bounds_witness :
    ((⟨2, 2⟩, DotState.full) : Position × DotState) ∈
        generateHalftoneStates [⟨2, 2⟩, ⟨9, 9⟩] (HalftoneStrategy.neighbors false 1) 5 [] ∧
      0 ≤ (Position.mk 2 2).x ∧ (Position.mk 2 2).x < 5 ∧
        0 ≤ (Position.mk 2 2).y ∧ (Position.mk 2 2).y < 5 := by
  refine ⟨by decide, ?_⟩
  exact c4_all_keys_in_bounds [⟨2, 2⟩, ⟨9, 9⟩] (HalftoneStrategy.neighbors false 1) 5 []
    (⟨2, 2⟩, DotState.full) (by decide)

theorem c5_full_never_overwritten_witness :
    (⟨2, 2⟩ : Position) ∈ ([⟨2, 2⟩, ⟨9, 9⟩] : List Position) ∧
      inBounds ⟨2, 2⟩ 5 ∧
      mapGet (generateHalftoneStates [⟨2, 2⟩, ⟨9, 9⟩]
        (HalftoneStrategy.trail 3) 5 [[⟨0, 0⟩]]) ⟨2, 2⟩ = some DotState.full :=
  ⟨by decide, by decide,
    c5_full_never_overwritten [⟨2, 2⟩, ⟨9, 9⟩] (HalftoneStrategy.trail 3) 5
      [[⟨0, 0⟩]] ⟨2, 2⟩ (by decide) (by decide)⟩

/-! Membership facts used by the gradient-strategy claim. -/

theorem mem_dedup_aux (l : List Position) :
    ∀ (acc : List Position) (a : Position),
      a ∈ l.foldl (fun acc p => if p ∈ acc then acc else acc ++ [p]) acc ↔
        a ∈ acc ∨ a ∈ l := by
  induction l with
  | nil => intro acc a; simp
  | cons p t ih =>
    intro acc a
    rw [List.foldl_cons, ih]
    by_cases hp : p ∈ acc
    · rw [if_pos hp]
      simp only [List.mem_cons]
      constructor
      · rintro (h | h)
        · exact Or.inl h
        · exact Or.inr (Or.inr h)
      · rintro (h | h | h)
        · exact Or.inl h
        · exact Or.inl (h ▸ hp)
        · exact Or.inr h
    · rw [if_neg hp]
      simp only [List.mem_append, List.mem_singleton, List.mem_cons]
      tauto

theorem mem_dedup {l : List Position} {a : Position} : a ∈ dedup l ↔ a ∈ l := by
  unfold dedup
  rw [mem_dedup_aux]
  simp

theorem mem_getNeighbors_one (x y g : ℤ) (q : Position) :
    q ∈ getNeighbors x y g 1 false ↔
      q ≠ ⟨x, y⟩ ∧ |q.x - x| ≤ 1 ∧ |q.y - y| ≤ 1 ∧ inBounds q g := by
  obtain ⟨qx, qy⟩ := q
  have hoffs : (List.range (2 * (1 : ℤ) + 1).toNat).map (fun i => (i : ℤ) - 1)
      = [-1, 0, 1] := by decide
  simp only [getNeighbors, hoffs]
  constructor
  · intro h
    rcases List.mem_flatMap.mp h with ⟨dx, hdx, hq⟩
    rcases List.mem_filterMap.mp hq with ⟨dy, hdy, hf⟩
    have hdx' : dx = -1 ∨ dx = 0 ∨ dx = 1 := by simpa using hdx
    have hdy' : dy = -1 ∨ dy = 0 ∨ dy = 1 := by simpa using hdy
    have hdxb : -1 ≤ dx ∧ dx ≤ 1 := by rcases hdx' with rfl | rfl | rfl <;> norm_num
    have hdyb : -1 ≤ dy ∧ dy ≤ 1 := by rcases hdy' with rfl | rfl | rfl <;> norm_num
    by_cases h00 : dx = 0 ∧ dy = 0
    · rw [if_pos h00] at hf; exact absurd hf (by simp)
    · rw [if_neg h00, if_neg (by simp)] at hf
      by_cases hb : inBounds ⟨x + dx, y + dy⟩ g
      · rw [if_pos hb] at hf
        have hq' : (⟨qx, qy⟩ : Position) = ⟨x + dx, y + dy⟩ := (Option.some.injEq _ _ ▸ hf).symm
        rw [Position.mk.injEq] at hq'
        obtain ⟨rfl, rfl⟩ := hq'
        refine ⟨?_, by simp; rw [abs_le]; omega, by simp; rw [abs_le]; omega, hb⟩
        intro hcon
        rw [Position.mk.injEq] at hcon
        exact h00 ⟨by omega, by omega⟩
      · rw [if_neg hb] at hf; exact absurd hf (by simp)
  · rintro ⟨hne, hx, hy, hb⟩
    rw [abs_le] at hx hy
    have hx1 : -1 ≤ qx - x ∧ qx - x ≤ 1 := hx
    have hy1 : -1 ≤ qy - y ∧ qy - y ≤ 1 := hy
    have hne' : ¬ (qx = x ∧ qy = y) := by
      intro hcon
      exact hne (by rw [Position.mk.injEq]; exact hcon)
    refine List.mem_flatMap.mpr ⟨qx - x, by simp; omega,
      List.mem_filterMap.mpr ⟨qy - y, by simp; omega, ?_⟩⟩
    have h00 : ¬ (qx - x = 0 ∧ qy - y = 0) := by
      rintro ⟨e1, e2⟩
      exact hne' ⟨by omega, by omega⟩
    rw [if_neg h00, if_neg (by simp)]
    have heq : (⟨x + (qx - x), y + (qy - y)⟩ : Position) = ⟨qx, qy⟩ := by
      rw [Position.mk.injEq]; constructor <;> omega
    rw [heq, if_pos hb]

theorem getCentroid_single (p : Position) :
    getCentroid [p] = ((p.x : ℚ), (p.y : ℚ)) := by
  simp [getCentroid]

theorem dist2_self (p : Position) : dist2 p ((p.x : ℚ), (p.y : ℚ)) = 0 := by
  unfold dist2; ring

theorem dist2_nonneg (q : Position) (c : ℚ × ℚ) : 0 ≤ dist2 q c := by
  unfold dist2; positivity

theorem dist2_eq_zero_iff (q p : Position) :
    dist2 q ((p.x : ℚ), (p.y : ℚ)) = 0 ↔ q = p := by
  obtain ⟨qx, qy⟩ := q
  obtain ⟨px, py⟩ := p
  have hcast : dist2 ⟨qx, qy⟩ (((px : ℤ) : ℚ), ((py : ℤ) : ℚ))
      = (((qx - px) ^ 2 + (qy - py) ^ 2 : ℤ) : ℚ) := by
    unfold dist2; push_cast; ring
  rw [show ((⟨px, py⟩ : Position).x : ℚ) = ((px : ℤ) : ℚ) from rfl,
    show ((⟨px, py⟩ : Position).y : ℚ) = ((py : ℤ) : ℚ) from rfl, hcast, Int.cast_eq_zero]
  constructor
  · intro h
    have hx : qx - px = 0 := by nlinarith [sq_nonneg (qx - px), sq_nonneg (qy - py)]
    have hy : qy - py = 0 := by nlinarith [sq_nonneg (qx - px), sq_nonneg (qy - py)]
    rw [Position.mk.injEq]
    constructor <;> omega
  · intro h
    rw [Position.mk.injEq] at h
    obtain ⟨rfl, rfl⟩ := h
    ring

/-- C10: with a single in-bounds full cell, the centroid is that cell, whose
own centroid distance is 0; hence `inward` (some full strictly farther than
the neighbor) never holds and yields no mid cells, while `outward` (some
full strictly closer) holds for every neighbor, so exactly the in-bounds
cells at Chebyshev distance 1 from the cell become mid. -/
theorem c10_gradient_single (p : Position) (gridSize : ℤ)
    (hb : inBounds p gridSize) :
    applyGradientHalftones [p] Direction.inward gridSize = [] ∧
      ∀ q : Position, q ∈ applyGradientHalftones [p] Direction.outward gridSize ↔
        q ≠ p ∧ |q.x - p.x| ≤ 1 ∧ |q.y - p.y| ≤ 1 ∧ inBounds q gridSize := by
  constructor
  · simp only [applyGradientHalftones, getCentroid_single]
    rw [List.filter_eq_nil_iff]
    intro nb _
    simp only [List.any_cons, List.any_nil, Bool.or_false]
    rw [dist2_self]
    simp [not_lt.mpr (dist2_nonneg nb ((p.x : ℚ), (p.y : ℚ)))]
  · intro q
    simp only [applyGradientHalftones, getCentroid_single]
    rw [List.mem_filter]
    have hmemiff : q ∈ applyNeighborHalftones [p] gridSize false 1 ↔
        q ≠ p ∧ |q.x - p.x| ≤ 1 ∧ |q.y - p.y| ≤ 1 ∧ inBounds q gridSize := by
      simp only [applyNeighborHalftones, List.flatMap_cons, List.flatMap_nil,
        List.append_nil]
      rw [mem_dedup, List.mem_filter]
      constructor
      · rintro ⟨hmem, -⟩
        have := (mem_getNeighbors_one p.x p.y gridSize q).mp hmem
        simpa using this
      · intro h
        refine ⟨(mem_getNeighbors_one p.x p.y gridSize q).mpr (by simpa using h), ?_⟩
        simp only [List.mem_singleton, decide_eq_true_iff]
        exact h.1
    constructor
    · rintro ⟨hmem, hpred⟩
      exact hmemiff.mp hmem
    · intro h
      refine ⟨hmemiff.mpr h, ?_⟩
      simp only [List.any_cons, List.any_nil, Bool.or_false]
      rw [dist2_self, decide_eq_true_iff]
      rcases lt_or_eq_of_le (dist2_nonneg q ((p.x : ℚ), (p.y : ℚ))) with hlt | heq
      · exact hlt
      · exact absurd ((dist2_eq_zero_iff q p).mp heq.symm) h.1

theorem c10_gradient_single_witness :
    inBounds ⟨2, 2⟩ 5 ∧
      applyGradientHalftones [⟨2, 2⟩] Direction.inward 5 = [] ∧
      (⟨1, 1⟩ : Position) ∈ applyGradientHalftones [⟨2, 2⟩] Direction.outward 5 := by
  refine ⟨by decide, (c10_gradient_single ⟨2, 2⟩ 5 (by decide)).1, ?_⟩
  exact ((c10_gradient_single ⟨2, 2⟩ 5 (by decide)).2 ⟨1, 1⟩).mpr (by decide)

/-! Bounds for the usage-series pipeline. -/

theorem jsRound_bounds {q : ℚ} (h0 : 0 ≤ q) (h12 : q ≤ 12) :
    0 ≤ jsRound q ∧ jsRound q ≤ 12 := by
  unfold jsRound
  constructor
  · exact Int.le_floor.mpr (by push_cast; linarith)
  · have h13 : ⌊q + 1 / 2⌋ < 13 := Int.floor_lt.mpr (by push_cast; linarith)
    omega

theorem clampI_bounds (z : ℤ) :
    0 ≤ jsMinI 12 (jsMaxI 0 z) ∧ jsMinI 12 (jsMaxI 0 z) ≤ 12 := by
  unfold jsMinI jsMaxI
  split <;> split <;> omega

theorem clampQ_bounds (lvl : ℚ) :
    0 ≤ jsMax 0 (jsMin 1 lvl) ∧ jsMax 0 (jsMin 1 lvl) ≤ 1 := by
  unfold jsMax jsMin
  split_ifs <;> constructor <;> linarith

theorem heightsGo_length (clamped trend : ℚ) (powQ : ℚ → ℚ) (rand : ℕ → ℚ)
    (jitter : ℤ) : ∀ (fuel : ℕ) (current : ℤ) (column : ℕ),
      (heightsGo clamped trend powQ rand jitter current column fuel).length = fuel := by
  intro fuel
  induction fuel with
  | zero => intro current column; rfl
  | succ n ih =>
    intro current column
    simp only [heightsGo, List.length_cons, ih]

theorem heightsGo_mem_bounds (clamped trend : ℚ) (powQ : ℚ → ℚ) (rand : ℕ → ℚ)
    (jitter : ℤ) : ∀ (fuel : ℕ) (current : ℤ) (column : ℕ),
      0 ≤ current → current ≤ 12 →
      ∀ h ∈ heightsGo clamped trend powQ rand jitter current column fuel,
        0 ≤ h ∧ h ≤ 12 := by
  intro fuel
  induction fuel with
  | zero =>
    intro current column _ _ h hh
    exact absurd hh (List.not_mem_nil h)
  | succ n ih =>
    intro current column hcur0 hcur12 h hh
    simp only [heightsGo] at hh
    have hmax : ((GRID_ROWS : ℤ) - 1) = 12 := by norm_num [GRID_ROWS]
    rw [hmax] at hh
    set target := jsMinI 12 (jsMaxI 0
      (baseHeight clamped trend powQ column +
        (⌊rand column * (↑jitter * 2 + 1)⌋ - jitter))) with htarget
    have ht := clampI_bounds
      (baseHeight clamped trend powQ column + (⌊rand column * (↑jitter * 2 + 1)⌋ - jitter))
    rw [← htarget] at ht
    have hnext : 0 ≤ jsRound ((current : ℚ) * (1 - 45 / 100) + (target : ℚ) * (45 / 100)) ∧
        jsRound ((current : ℚ) * (1 - 45 / 100) + (target : ℚ) * (45 / 100)) ≤ 12 := by
      have hc0 : (0 : ℚ) ≤ (current : ℚ) := by exact_mod_cast hcur0
      have hc12 : (current : ℚ) ≤ 12 := by exact_mod_cast hcur12
      have ht0 : (0 : ℚ) ≤ (target : ℚ) := by exact_mod_cast ht.1
      have ht12 : (target : ℚ) ≤ 12 := by exact_mod_cast ht.2
      exact jsRound_bounds (by linarith) (by linarith)
    rcases List.mem_cons.mp hh with rfl | hh'
    · exact hnext
    · exact ih _ (column + 1) hnext.1 hnext.2 h hh'

theorem getD_mem {l : List ℤ} {i : ℕ} (h : i < l.length) (d : ℤ) :
    l.getD i d ∈ l := by
  rw [List.getD_eq_getElem l d h]
  exact List.getElem_mem h

theorem smoothHeights_length (hs : List ℤ) :
    (smoothHeights hs).length = hs.length := by
  simp [smoothHeights]

theorem smoothHeights_mem_bounds (hs : List ℤ)
    (hb : ∀ h ∈ hs, 0 ≤ h ∧ h ≤ 12) :
    ∀ s ∈ smoothHeights hs, 0 ≤ s ∧ s ≤ 12 := by
  intro s hs'
  simp only [smoothHeights] at hs'
  rcases List.mem_map.mp hs' with ⟨i, hi, rfl⟩
  have hilen : i < hs.length := List.mem_range.mp hi
  have hprev := hb _ (getD_mem (show i - 1 < hs.length by omega) 0)
  have hval := hb _ (getD_mem hilen 0)
  have hnext := hb _ (getD_mem (show min (hs.length - 1) (i + 1) < hs.length by omega) 0)
  refine jsRound_bounds ?_ ?_
  · refine div_nonneg ?_ (by norm_num)
    exact_mod_cast (show (0 : ℤ) ≤ hs.getD (i - 1) 0 + hs.getD i 0 * 2 +
      hs.getD (min (hs.length - 1) (i + 1)) 0 by omega)
  · rw [div_le_iff₀ (by norm_num : (0 : ℚ) < 4)]
    exact_mod_cast (show hs.getD (i - 1) 0 + hs.getD i 0 * 2 +
      hs.getD (min (hs.length - 1) (i + 1)) 0 ≤ 12 * 4 by omega)

theorem baseHeight_zero (clamped trend : ℚ) (powQ : ℚ → ℚ) (hpow : powQ 0 = 0) :
    baseHeight clamped trend powQ 0 = jsRound (clamped * (1 / 5) * 12) := by
  simp only [baseHeight, GRID_COLUMNS, GRID_ROWS]
  norm_num [hpow]

theorem baseHeight_zero_bounds (clamped trend : ℚ) (powQ : ℚ → ℚ)
    (hpow : powQ 0 = 0) (hc0 : 0 ≤ clamped) (hc1 : clamped ≤ 1) :
    0 ≤ baseHeight clamped trend powQ 0 ∧ baseHeight clamped trend powQ 0 ≤ 12 := by
  rw [baseHeight_zero clamped trend powQ hpow]
  exact jsRound_bounds (by linarith) (by linarith)

/-- C9: for every level, trend and random draw (and any value of the
abstracted `Math.pow`, which is exact at 0), the usage series has exactly
one emitted point per column — the x-values are exactly `0 … 20` in order —
and every emitted y lies within `[0, GRID_ROWS - 1]`. -/
theorem c9_usage_series (usageLevel usageTrend : ℚ) (rand : ℕ → ℚ)
    (powQ : ℚ → ℚ) (hpow : powQ 0 = 0) :
    (createUsagePositions usageLevel usageTrend rand powQ).map Position.x
        = (List.range GRID_COLUMNS).map (fun c => (c : ℤ)) ∧
      ∀ p ∈ createUsagePositions usageLevel usageTrend rand powQ,
        0 ≤ p.y ∧ p.y ≤ (GRID_ROWS : ℤ) - 1 := by
  constructor
  · simp only [createUsagePositions, List.map_map]
    rfl
  · intro p hp
    simp only [createUsagePositions] at hp
    rcases List.mem_map.mp hp with ⟨c, hc, rfl⟩
    have hcN : c < GRID_COLUMNS := List.mem_range.mp hc
    have hclamp := clampQ_bounds usageLevel
    have hb0 := baseHeight_zero_bounds (jsMax 0 (jsMin 1 usageLevel))
      (jsMax (-1) (jsMin 1 usageTrend)) powQ hpow hclamp.1 hclamp.2
    have hinit : ((List.range GRID_COLUMNS).map
        (baseHeight (jsMax 0 (jsMin 1 usageLevel))
          (jsMax (-1) (jsMin 1 usageTrend)) powQ)).getD 0 0
        = baseHeight (jsMax 0 (jsMin 1 usageLevel))
            (jsMax (-1) (jsMin 1 usageTrend)) powQ 0 := by
      rw [List.getD_eq_getElem _ _ (by simp [GRID_COLUMNS])]
      simp
    have hall := heightsGo_mem_bounds (jsMax 0 (jsMin 1 usageLevel))
      (jsMax (-1) (jsMin 1 usageTrend)) powQ rand
      (jsMaxI 1 (jsRound (jsMax 0 (jsMin 1 usageLevel) * 2)))
      GRID_COLUMNS
      (((List.range GRID_COLUMNS).map
        (baseHeight (jsMax 0 (jsMin 1 usageLevel))
          (jsMax (-1) (jsMin 1 usageTrend)) powQ)).getD 0 0) 0
      (hinit ▸ hb0.1) (hinit ▸ hb0.2)
    have hsm := smoothHeights_mem_bounds _ hall
    have hlen : c < (smoothHeights (heightsGo (jsMax 0 (jsMin 1 usageLevel))
        (jsMax (-1) (jsMin 1 usageTrend)) powQ rand
        (jsMaxI 1 (jsRound (jsMax 0 (jsMin 1 usageLevel) * 2)))
        (((List.range GRID_COLUMNS).map
          (baseHeight (jsMax 0 (jsMin 1 usageLevel))
            (jsMax (-1) (jsMin 1 usageTrend)) powQ)).getD 0 0) 0
        GRID_COLUMNS)).length := by
      rw [smoothHeights_length, heightsGo_length]
      exact hcN
    have hsb := hsm _ (getD_mem hlen 0)
    have hmax : ((GRID_ROWS : ℤ) - 1) = 12 := by norm_num [GRID_ROWS]
    refine ⟨?_, ?_⟩ <;> simp only [] <;> omega

theorem c9_usage_series_witness :
    ((fun _ : ℚ => (0 : ℚ)) 0 = 0) ∧
      (createUsagePositions (1 / 2) 0 (fun _ => 0) (fun _ => 0)).map Position.x
        = (List.range GRID_COLUMNS).map (fun c => (c : ℤ)) ∧
      (⟨0, 11⟩ : Position) ∈ createUsagePositions (1 / 2) 0 (fun _ => 0) (fun _ => 0) ∧
      0 ≤ (Position.mk 0 11).y ∧ (Position.mk 0 11).y ≤ (GRID_ROWS : ℤ) - 1 :=
  ⟨rfl, (c9_usage_series (1 / 2) 0 (fun _ => 0) (fun _ => 0) rfl).1, by decide,
    (c9_usage_series (1 / 2) 0 (fun _ => 0) (fun _ => 0) rfl).2 ⟨0, 11⟩ (by decide)⟩

/-- C3 counterexample: `createUsagePositions` performs no gap-fill.  At
level 1, trend 0 and the concrete random draws of `cexRand` (delta −2 for
the first ten columns, +2 afterwards), column 9 emits row 10 and column 10
emits row 8, yet the strictly-between row 9 is not emitted at column 9, so
the rendered path jumps two rows between adjacent columns. -/
theorem c3_counterexample :
    ¬ ∀ (usageLevel usageTrend : ℚ) (rand : ℕ → ℚ) (powQ : ℚ → ℚ) (c : ℕ),
        c + 1 < GRID_COLUMNS → ∀ r : ℤ,
        ((((createUsagePositions usageLevel usageTrend rand powQ).getD c ⟨0, 0⟩).y < r ∧
            r < ((createUsagePositions usageLevel usageTrend rand powQ).getD (c + 1) ⟨0, 0⟩).y) ∨
          (((createUsagePositions usageLevel usageTrend rand powQ).getD (c + 1) ⟨0, 0⟩).y < r ∧
            r < ((createUsagePositions usageLevel usageTrend rand powQ).getD c ⟨0, 0⟩).y)) →
        (⟨(c : ℤ), r⟩ : Position) ∈ createUsagePositions usageLevel usageTrend rand powQ := by
  intro h
  have := h 1 0 cexRand (fun _ => 0) 9 (by decide) 9 (by decide)
  exact absurd this (by decide)

theorem filter_map_range_eq (n : ℕ) (g : ℕ → ℤ) (c : ℕ) (hc : c < n) :
    ((List.range n).map (fun (i : ℕ) => (⟨(i : ℤ), g i⟩ : Position))).filter
        (fun p => p.x = (c : ℤ)) = [⟨(c : ℤ), g c⟩] := by
  induction n with
  | zero => omega
  | succ m ih =>
    rw [List.range_succ, List.map_append, List.filter_append]
    by_cases hcm : c < m
    · rw [ih hcm]
      have hm : List.filter (fun p => decide (p.x = (c : ℤ)))
          (List.map (fun (i : ℕ) => (⟨(i : ℤ), g i⟩ : Position)) [m]) = [] := by
        rw [List.filter_eq_nil_iff]
        intro a ha
        rcases List.mem_map.mp ha with ⟨i, hi, rfl⟩
        rcases List.mem_singleton.mp hi with rfl
        simp
        omega
      rw [hm, List.append_nil]
    · have hcm' : c = m := by omega
      subst hcm'
      have h1 : List.filter (fun p => decide (p.x = (c : ℤ)))
          (List.map (fun (i : ℕ) => (⟨(i : ℤ), g i⟩ : Position)) (List.range c)) = [] := by
        rw [List.filter_eq_nil_iff]
        intro a ha
        rcases List.mem_map.mp ha with ⟨i, hi, rfl⟩
        have : i < c := List.mem_range.mp hi
        simp
        omega
      rw [h1, List.nil_append]
      simp

/-- C3 (amended): the usage-series generator emits exactly one cell per
column (the column's own height-row); it inserts no gap-fill cells, so
adjacent columns' emitted rows can differ by more than one row (see the
counterexample). -/
theorem c3_one_cell_per_column (usageLevel usageTrend : ℚ) (rand : ℕ → ℚ)
    (powQ : ℚ → ℚ) (c : ℕ) (hc : c < GRID_COLUMNS) :
    ((createUsagePositions usageLevel usageTrend rand powQ).filter
        (fun p => p.x = (c : ℤ))).length = 1 := by
  simp only [createUsagePositions]
  rw [filter_map_range_eq GRID_COLUMNS _ c hc]
  rfl

theorem c3_one_cell_per_column_witness :
    ((createUsagePositions 1 0 cexRand (fun _ => 0)).filter
        (fun p => p.x = (9 : ℤ))).length = 1 :=
  c3_one_cell_per_column 1 0 cexRand (fun _ => 0) 9 (by decide)
